import Mathlib

/-!
Verification of the `cherry-pick-check` tool (a GitHub cherry-pick status
checker) against its natural-language specification.

The development shallowly embeds the Python modules
`branch_detector.py`, `cherry_pick_detector.py` and `github_client.py`:

* pure Python functions become Lean functions on `String` / `List`;
* the HTTP client is abstracted as response oracles passed explicitly;
* Python exceptions become `Except` values;
* Python `str.lower` is modelled with ASCII case mapping and the regex
  classes `\d` / `$` with ASCII digits / end-of-string (git branch names
  and PR bodies handled by the tool are ASCII and contain no trailing
  newline, so the Python semantics coincide on the actual domain);
* `sorted(..., key=cmp_to_key(c), reverse=True)` — a stable descending
  sort — is modelled by a stable descending insertion sort.

Machine integers do not occur (Python integers are unbounded), so `Nat`
and `Int` are used directly.
-/

/-! ### Generic string helpers

These re-implement the Python string primitives the tool uses by
structural recursion on `List Char`, mirroring their Python semantics. -/

/-- Does the list `s` start with the list `pat`? (Helper for substring search.) -/
def listStartsWith : List Char → List Char → Bool
  | [], _ => true
  | _ :: _, [] => false
  | p :: ps, c :: cs => p = c && listStartsWith ps cs

/-- Does `pat` occur somewhere inside `s`? (Helper for substring search.) -/
def listContainsSub (pat : List Char) : List Char → Bool
  | [] => listStartsWith pat []
  | c :: cs => listStartsWith pat (c :: cs) || listContainsSub pat cs

/-- Python's `pat in s` substring test. -/
def containsSubstr (s pat : String) : Bool :=
  listContainsSub pat.toList s.toList

/-- ASCII lower-casing of one character (Python's `str.lower` on the
ASCII domain handled by the tool). -/
def asciiLower (c : Char) : Char :=
  if 'A' ≤ c ∧ c ≤ 'Z' then Char.ofNat (c.toNat + 32) else c

/-- Python's `str.lower` (ASCII fragment). -/
def pyLower (s : String) : String :=
  ⟨s.toList.map asciiLower⟩

/-- Split a character list on `.`, Python's `str.split(".")`. -/
def splitOnDot : List Char → List (List Char)
  | [] => [[]]
  | c :: cs =>
    if c = '.' then [] :: splitOnDot cs
    else
      match splitOnDot cs with
      | [] => [[c]]
      | g :: gs => (c :: g) :: gs

/-- Python's `s.split(".")` on strings. -/
def pySplitDot (s : String) : List String :=
  (splitOnDot s.toList).map String.mk

/-- Python's `str.isdigit` (ASCII fragment): nonempty and all characters digits. -/
def pyIsDigit (s : String) : Bool :=
  !s.isEmpty && s.toList.all Char.isDigit

/-- Decimal value of a digit string, as produced by Python's `int(p)`
for a string `p` with `p.isdigit()`. -/
def digitsToNat (s : String) : Nat :=
  s.toList.foldl (fun acc c => acc * 10 + (c.toNat - '0'.toNat)) 0

/-- Python's `str.rstrip(".x")`: remove every trailing character that is
`.` or `x`. -/
def rstripDotX (s : String) : String :=
  ⟨(s.toList.reverse.dropWhile (fun c => c = '.' || c = 'x')).reverse⟩

/-! ### `branch_detector.py` -/

/-- From `branch_detector._parse_version`: strip trailing `.`/`x`
characters, split on `.`, keep the all-digit parts as numbers. -/
def _parse_version (branch : String) : List Nat :=
  (pySplitDot (rstripDotX branch)).filterMap
    (fun p => if pyIsDigit p then some (digitsToNat p) else none)

/-- Tail of the comparison loop once the left tuple is exhausted: each
remaining right component is compared against 0. -/
def vcmpZero : List Nat → Int
  | [] => 0
  | y :: ys => if 0 ≠ y then -(y : Int) else vcmpZero ys

/-- The component loop of `branch_detector._version_compare`: compare the
two tuples left to right, a missing component counting as 0; the first
unequal pair decides via its difference. -/
def vcmp : List Nat → List Nat → Int
  | [], ys => vcmpZero ys
  | x :: xs, [] => if x ≠ 0 then (x : Int) else vcmp xs []
  | x :: xs, y :: ys => if x ≠ y then (x : Int) - (y : Int) else vcmp xs ys

/-- From `branch_detector._version_compare`. -/
def _version_compare (a b : String) : Int :=
  vcmp (_parse_version a) (_parse_version b)

/-- Insert `a` into a descending-sorted list, before the first element it
compares greater than or equal to. Folding this is the stable descending
sort `sorted(..., key=cmp_to_key(_version_compare), reverse=True)`. -/
def insertDesc (a : String) : List String → List String
  | [] => [a]
  | b :: l => if 0 ≤ _version_compare a b then a :: b :: l else b :: insertDesc a l

/-- Stable descending sort by `_version_compare` (Python's
`sorted(..., key=cmp_to_key(_version_compare), reverse=True)`). -/
def sortDesc (l : List String) : List String :=
  l.foldr insertDesc []

/-- Regex `^\d+\.\d+$` (e.g. `2.4`): exactly two nonempty digit groups. -/
def matchMajorMinor (s : String) : Bool :=
  match pySplitDot s with
  | [a, b] => pyIsDigit a && pyIsDigit b
  | _ => false

/-- Regex `^\d+\.\d+\.\d+$` (e.g. `2.0.2`). -/
def matchMajorMinorPatch (s : String) : Bool :=
  match pySplitDot s with
  | [a, b, c] => pyIsDigit a && pyIsDigit b && pyIsDigit c
  | _ => false

/-- Regex `^\d+\.x$` (e.g. `2.x`). -/
def matchMajorX (s : String) : Bool :=
  match pySplitDot s with
  | [a, b] => pyIsDigit a && b = "x"
  | _ => false

/-- Regex `^\d+\.\d+\.x$` (e.g. `2.4.x`). -/
def matchMajorMinorX (s : String) : Bool :=
  match pySplitDot s with
  | [a, b, c] => pyIsDigit a && pyIsDigit b && c = "x"
  | _ => false

/-- The alternation of the four `RELEASE_BRANCH_PATTERNS` of
`branch_detector.py` (each alternative is anchored `^...$`). -/
def matchAnyRelease (s : String) : Bool :=
  matchMajorMinor s || matchMajorMinorPatch s || matchMajorX s || matchMajorMinorX s

/-- The filtering loop of `branch_detector.detect_release_branches`: drop
the excluded branch, keep branches matching the mode's pattern. -/
def releaseFilter (all_branches : List String) (exclude_branch : Option String)
    (major_only : Bool) : List String :=
  all_branches.filter fun b =>
    decide (some b ≠ exclude_branch) &&
      (if major_only then matchMajorMinor b else matchAnyRelease b)

/-- From `branch_detector.detect_release_branches`. The `limit` argument is
applied with Python truthiness: `if limit:` is false both for `None` and
for `0`, so the slice `[:limit]` happens only for a nonzero limit. -/
def detect_release_branches (all_branches : List String) (exclude_branch : Option String)
    (major_only : Bool) (limit : Option Nat) : List String :=
  let sorted_branches := sortDesc (releaseFilter all_branches exclude_branch major_only)
  match limit with
  | some n => if n ≠ 0 then sorted_branches.take n else sorted_branches
  | none => sorted_branches

/-- From `branch_detector.filter_branches`: keep the requested branches
that occur among all branches (`set` membership is list membership). -/
def filter_branches (all_branches target_branches : List String) : List String :=
  target_branches.filter fun b => all_branches.contains b

/-! ### `cherry_pick_detector.py`: the body matcher -/

/-- The `CHERRY_PICK_KEYWORDS` list of `cherry_pick_detector.py`. -/
def CHERRY_PICK_KEYWORDS : List String :=
  ["cherry-pick", "cherry pick", "cherrypick", "backport", "pick pr"]

/-- The `pr_patterns` list of `_is_cherry_pick_reference` for source PR
number `n`. -/
def prPatterns (n : Nat) : List String :=
  ["#" ++ toString n, "pull/" ++ toString n, "pr: #" ++ toString n,
   "pr: " ++ toString n, "pr:#" ++ toString n, "pr:" ++ toString n]

/-- The `has_keyword` test of `_is_cherry_pick_reference`: some keyword
occurs in the lower-cased body. -/
def hasCherryPickKeyword (body_lower : String) : Bool :=
  CHERRY_PICK_KEYWORDS.any fun kw => containsSubstr body_lower kw

/-- The `has_reference` test of `_is_cherry_pick_reference`: some pattern
occurs in the original or the lower-cased body. -/
def hasSourceReference (body : String) (source_pr_number : Nat) : Bool :=
  (prPatterns source_pr_number).any fun p =>
    containsSubstr body p || containsSubstr (pyLower body) p

/-- The `has_pr_prefix` test of `_is_cherry_pick_reference`: the
lower-cased body carries a `pr:` or `pr :` label. -/
def hasPrLabel (body_lower : String) : Bool :=
  containsSubstr body_lower "pr:" || containsSubstr body_lower "pr :"

/-- From `cherry_pick_detector._is_cherry_pick_reference` (the unused
`repo` parameter is dropped). -/
def _is_cherry_pick_reference (body : String) (source_pr_number : Nat) : Bool :=
  if body.isEmpty then false
  else
    let has_keyword := hasCherryPickKeyword (pyLower body)
    let has_reference := hasSourceReference body source_pr_number
    let has_pr_label := hasPrLabel (pyLower body)
    if has_pr_label && has_reference then true
    else has_keyword && has_reference

/-- The matcher as the specification words it: empty body is false;
otherwise true iff (label shortcut and a reference hit) or (a keyword hit
and a reference hit). -/
def cherryPickReferenceSpec (body : String) (source_pr_number : Nat) : Bool :=
  if body.isEmpty then false
  else
    (hasPrLabel (pyLower body) && hasSourceReference body source_pr_number)
      || (hasCherryPickKeyword (pyLower body) && hasSourceReference body source_pr_number)

/-! ### Data model (`models.py`) -/

/-- The `PRState` enum (`OPEN` is spelled `opened` since `open` is a Lean
keyword). -/
inductive PRState where
  | opened
  | merged
  | closed
  deriving DecidableEq, Repr

/-- The `CherryPickStatus` enum. -/
inductive CherryPickStatus where
  | picked
  | notPicked
  | unknown
  deriving DecidableEq, Repr

/-- The `PRInfo` model. Timestamps are kept as their ISO source text
(`datetime.fromisoformat` is injective on the well-formed inputs the tool
receives, so nothing is lost). -/
structure PRInfo where
  number : Nat
  title : String
  url : String
  author : String
  state : PRState
  createdAt : Option String
  mergedAt : Option String
  baseBranch : String
  deriving DecidableEq, Repr

/-- The `CherryPickResult` model. -/
structure CherryPickResult where
  sourcePr : PRInfo
  targetBranch : String
  status : CherryPickStatus
  relatedPr : Option PRInfo
  detectionMethod : String
  deriving DecidableEq, Repr

/-! ### `cherry_pick_detector.py`: the detection pass

The `GitHubClient` methods used by the detector are abstracted as oracles:
`search_related_prs` and `get_pr_details` become explicit arguments, and a
raised exception becomes an `Except.error`. -/

/-- An error escaping a GitHub client call: the `RateLimitError` of
`github_client.py` (carrying the reset timestamp it reports), an HTTP
error from `raise_for_status`, or any other exception. -/
inductive GHError where
  | rateLimited (reset : Option Int)
  | httpStatus (code : Nat)
  | other
  deriving DecidableEq, Repr

/-- A search-result item as consumed by `_detect_for_pr`: its `number`
and its `body` field (which may be null). -/
structure PRData where
  number : Nat
  body : Option String
  deriving DecidableEq, Repr

/-- A PR detail response as consumed by `_detect_for_pr` and
`_parse_pr_info`: the fields the code reads. `mergedAt` is the merge
timestamp found either nested under `pull_request` or at top level. -/
structure PRDetail where
  number : Nat
  title : String
  url : String
  author : String
  state : String
  createdAt : Option String
  mergedAt : Option String
  baseRef : String
  deriving DecidableEq, Repr

/-- From `cherry_pick_detector._parse_pr_state`: merged wins; otherwise
the `state` field decides, defaulting to open. -/
def _parse_pr_state (d : PRDetail) : PRState :=
  match d.mergedAt with
  | some _ => PRState.merged
  | none =>
    let st := pyLower d.state
    if st = "open" then PRState.opened
    else if st = "closed" then PRState.closed
    else PRState.opened

/-- From `cherry_pick_detector._parse_pr_info`: build a `PRInfo`,
overriding the base branch when one is supplied. -/
def _parse_pr_info (d : PRDetail) (base_branch : Option String) : PRInfo :=
  { number := d.number, title := d.title, url := d.url, author := d.author,
    state := _parse_pr_state d, createdAt := d.createdAt, mergedAt := d.mergedAt,
    baseBranch := base_branch.getD d.baseRef }

/-- The candidate loop of `_detect_for_pr`, building the
`branch_to_cp` dict (modelled as a function `String → Option PRInfo`,
later writes overwriting earlier ones exactly as dict assignment does):
skip the source PR itself, skip bodies that are not cherry-pick
references, fetch the candidate's detail, and on fetch failure skip the
candidate; record the candidate under its base branch when that branch is
among the requested targets. -/
def buildBranchMap (getDetails : Nat → Except GHError PRDetail) (sourceNum : Nat)
    (target_branches : List String) :
    List PRData → (String → Option PRInfo) → (String → Option PRInfo)
  | [], m => m
  | d :: rest, m =>
    if d.number = sourceNum then
      buildBranchMap getDetails sourceNum target_branches rest m
    else if !(_is_cherry_pick_reference (d.body.getD "") sourceNum) then
      buildBranchMap getDetails sourceNum target_branches rest m
    else
      match getDetails d.number with
      | Except.error _ => buildBranchMap getDetails sourceNum target_branches rest m
      | Except.ok detail =>
        if detail.baseRef ∈ target_branches then
          buildBranchMap getDetails sourceNum target_branches rest
            (fun b => if b = detail.baseRef
                      then some (_parse_pr_info detail (some detail.baseRef))
                      else m b)
        else
          buildBranchMap getDetails sourceNum target_branches rest m

/-- The result-building loop of `_detect_for_pr`: one `CherryPickResult`
per target branch, `picked` with the related PR when the branch map has
an entry, `not_picked` otherwise (the other fields keep their pydantic
defaults). -/
def resultForBranch (source_pr : PRInfo) (m : String → Option PRInfo)
    (branch : String) : CherryPickResult :=
  match m branch with
  | some cp =>
    { sourcePr := source_pr, targetBranch := branch,
      status := CherryPickStatus.picked, relatedPr := some cp,
      detectionMethod := "PR body reference" }
  | none =>
    { sourcePr := source_pr, targetBranch := branch,
      status := CherryPickStatus.notPicked, relatedPr := none,
      detectionMethod := "" }

/-- From `cherry_pick_detector._detect_for_pr`: search for related PRs
(an exception there propagates), build the branch map, then emit one
result per requested target branch, picked or not picked. -/
def _detect_for_pr (searchRelated : Except GHError (List PRData))
    (getDetails : Nat → Except GHError PRDetail)
    (source_pr : PRInfo) (target_branches : List String) :
    Except GHError (List CherryPickResult) :=
  match searchRelated with
  | Except.error e => Except.error e
  | Except.ok related =>
    let m := buildBranchMap getDetails source_pr.number target_branches related
      (fun _ => none)
    Except.ok (target_branches.map (resultForBranch source_pr m))

/-- From `cherry_pick_detector.detect_cherry_picks`: run `_detect_for_pr`
for each source PR in order and concatenate (the progress bar changes no
data flow; an exception anywhere aborts the pass). `searchRelated` is the
per-source-PR search oracle, keyed by the source PR number. -/
def detect_cherry_picks (searchRelated : Nat → Except GHError (List PRData))
    (getDetails : Nat → Except GHError PRDetail)
    (source_prs : List PRInfo) (target_branches : List String) :
    Except GHError (List CherryPickResult) :=
  match source_prs with
  | [] => Except.ok []
  | pr :: rest =>
    match _detect_for_pr (searchRelated pr.number) getDetails pr target_branches with
    | Except.error e => Except.error e
    | Except.ok rs =>
      match detect_cherry_picks searchRelated getDetails rest target_branches with
      | Except.error e => Except.error e
      | Except.ok more => Except.ok (rs ++ more)

/-! ### `github_client.py`: rate limiting and pagination -/

/-- What one call of `_handle_rate_limit` does: return `False` (proceed),
sleep 2 seconds then return `False` (low remaining quota), sleep `wait`
seconds then return `True` (retry), or raise `RateLimitError` carrying
the reset time it reports. -/
inductive RateLimitAction where
  | proceed
  | slowProceed
  | sleepRetry (wait : Int)
  | raiseLimit (reset : Option Int)
  deriving DecidableEq, Repr

/-- From `github_client._handle_rate_limit`. `remaining` and `reset_ts`
are the parsed `X-RateLimit-Remaining` / `X-RateLimit-Reset` headers
(`none` for a missing or empty header, matching Python truthiness), and
`now` is `time.time()` truncated to an integer. -/
def _handle_rate_limit (auto_wait : Bool) (remaining : Option Int)
    (reset_ts : Option Int) (now : Int) : RateLimitAction :=
  match remaining with
  | none => RateLimitAction.proceed
  | some r =>
    if r = 0 then
      match reset_ts with
      | some reset =>
        let wait_seconds := max 0 (reset - now) + 1
        if auto_wait ∧ wait_seconds ≤ 120 then RateLimitAction.sleepRetry wait_seconds
        else RateLimitAction.raiseLimit (some reset)
      | none => RateLimitAction.raiseLimit none
    else if r < 5 then RateLimitAction.slowProceed
    else RateLimitAction.proceed

/-- The fixed `per_page` of `_search_issues` and `_paginate`. -/
def PER_PAGE : Nat := 100

/-- One HTTP response as seen by the pagination loops: the two rate-limit
headers, the status code, and the list of records in the body
(`data["items"]` for `_search_issues`, `data` itself for `_paginate`). -/
structure HttpResp (α : Type) where
  remaining : Option Int
  reset : Option Int
  status : Nat
  items : List α
  deriving DecidableEq, Repr

/-- How a pagination loop ends: normally with the yielded records, by a
raised `RateLimitError`, by `raise_for_status`, or not yet (fuel ran
out while the Python `while True` loop was still going). -/
inductive SearchOutcome (α : Type) where
  | ok (items : List α)
  | rateLimitAbort (reset : Option Int)
  | httpAbort (code : Nat)
  | fuelOut
  deriving DecidableEq, Repr

/-- The `while True` loop shared by `github_client._search_issues` and
`github_client._paginate`, stepped with explicit fuel. `resp i` is the
response to the i-th HTTP request of the loop and `now i` the clock at
that request; the returned log lists `(request index, page parameter)`
for every request issued (the query and `per_page := PER_PAGE` are fixed
for the whole loop). Each step checks `_handle_rate_limit` first — a
retryable rate limit re-requests the same page — then
`raise_for_status`, then yields the page's records: an empty page or a
page shorter than `PER_PAGE` ends the loop, a full page advances to the
next page number. -/
def _search_issues_go {α : Type} (auto_wait : Bool) (resp : Nat → HttpResp α)
    (now : Nat → Int) :
    Nat → Nat → Nat → List (Nat × Nat) × SearchOutcome α
  | 0, _, _ => ([], SearchOutcome.fuelOut)
  | fuel + 1, i, page =>
    let r := resp i
    match _handle_rate_limit auto_wait r.remaining r.reset (now i) with
    | RateLimitAction.sleepRetry _ =>
      let next := _search_issues_go auto_wait resp now fuel (i + 1) page
      ((i, page) :: next.1, next.2)
    | RateLimitAction.raiseLimit reset =>
      ([(i, page)], SearchOutcome.rateLimitAbort reset)
    | _ =>
      if 400 ≤ r.status then ([(i, page)], SearchOutcome.httpAbort r.status)
      else if r.items.isEmpty then ([(i, page)], SearchOutcome.ok [])
      else if r.items.length < PER_PAGE then ([(i, page)], SearchOutcome.ok r.items)
      else
        let next := _search_issues_go auto_wait resp now fuel (i + 1) (page + 1)
        match next.2 with
        | SearchOutcome.ok rest => ((i, page) :: next.1, SearchOutcome.ok (r.items ++ rest))
        | out => ((i, page) :: next.1, out)

/-! ### Auxiliary definitions for the claims -/

/-- Is an `Except` value a success? (Used to name the candidates whose
detail fetch succeeds.) -/
def exceptIsOk {ε α : Type} : Except ε α → Bool
  | Except.ok _ => true
  | Except.error _ => false

/-- A concrete source PR used by the concrete instances. -/
def samplePR : PRInfo :=
  { number := 1, title := "feat: add", url := "https://example/pull/1",
    author := "alice", state := PRState.merged, createdAt := none,
    mergedAt := none, baseBranch := "master" }

/-- A concrete search-result candidate whose body marks it as a
cherry-pick of PR 1. -/
def sampleCandidate : PRData :=
  { number := 2, body := some "Cherry-pick from master\npr: #1" }

/-- The not-picked result for `samplePR` on branch `2.4`. -/
def sampleNotPicked : CherryPickResult :=
  { sourcePr := samplePR, targetBranch := "2.4",
    status := CherryPickStatus.notPicked, relatedPr := none,
    detectionMethod := "" }

/-! ### Theory of `_version_compare`

`vcmp` compares two tuples as if both were padded with zeros to a common
length and then compared lexicographically; the padded view gives
antisymmetry, transitivity and the characterisation of ties. -/

/-- Pad a tuple with zeros on the right up to length `n`. -/
def padTo (l : List Nat) (n : Nat) : List Nat :=
  l ++ List.replicate (n - l.length) 0

/-- Lexicographic comparison of two equal-length tuples. -/
def lexCmp : List Nat → List Nat → Int
  | [], _ => 0
  | _ :: _, [] => 0
  | x :: xs, y :: ys => if x ≠ y then (x : Int) - (y : Int) else lexCmp xs ys

theorem lexCmp_cons_self (x : Nat) (xs ys : List Nat) :
    lexCmp (x :: xs) (x :: ys) = lexCmp xs ys := by
  simp [lexCmp]

theorem lexCmp_cons_ne {x y : Nat} (h : x ≠ y) (xs ys : List Nat) :
    lexCmp (x :: xs) (y :: ys) = (x : Int) - (y : Int) := by
  simp [lexCmp, h]

theorem vcmpZero_cons_zero (ys : List Nat) : vcmpZero (0 :: ys) = vcmpZero ys := by
  simp [vcmpZero]

theorem vcmpZero_cons_ne {y : Nat} (h : y ≠ 0) (ys : List Nat) :
    vcmpZero (y :: ys) = -(y : Int) := by
  simp [vcmpZero, Ne.symm h]

theorem vcmp_cons_nil_zero (xs : List Nat) : vcmp (0 :: xs) [] = vcmp xs [] := by
  simp [vcmp]

theorem vcmp_cons_nil_ne {x : Nat} (h : x ≠ 0) (xs : List Nat) :
    vcmp (x :: xs) [] = (x : Int) := by
  simp [vcmp, h]

theorem vcmp_cons_self (x : Nat) (xs ys : List Nat) :
    vcmp (x :: xs) (x :: ys) = vcmp xs ys := by
  simp [vcmp]

theorem vcmp_cons_ne {x y : Nat} (h : x ≠ y) (xs ys : List Nat) :
    vcmp (x :: xs) (y :: ys) = (x : Int) - (y : Int) := by
  simp [vcmp, h]

theorem padTo_nil_succ (n : Nat) : padTo [] (n + 1) = 0 :: padTo [] n := by
  simp [padTo, List.replicate_succ]

theorem padTo_cons (x : Nat) (l : List Nat) (n : Nat) :
    padTo (x :: l) (n + 1) = x :: padTo l n := by
  simp [padTo, Nat.succ_sub_succ]

theorem padTo_length (l : List Nat) (n : Nat) (h : l.length ≤ n) :
    (padTo l n).length = n := by
  simp only [padTo, List.length_append, List.length_replicate]
  omega

theorem vcmp_eq_lexCmp :
    ∀ (n : Nat) (va vb : List Nat), va.length ≤ n → vb.length ≤ n →
      vcmp va vb = lexCmp (padTo va n) (padTo vb n) := by
  intro n
  induction n with
  | zero =>
    intro va vb hva hvb
    have hva0 : va = [] := List.eq_nil_of_length_eq_zero (Nat.le_zero.mp hva)
    have hvb0 : vb = [] := List.eq_nil_of_length_eq_zero (Nat.le_zero.mp hvb)
    subst hva0; subst hvb0
    rfl
  | succ n ih =>
    intro va vb hva hvb
    cases va with
    | nil =>
      cases vb with
      | nil =>
        rw [padTo_nil_succ, lexCmp_cons_self]
        exact ih [] [] (by simp) (by simp)
      | cons y ys =>
        have hys : ys.length ≤ n := by simpa using hvb
        rw [padTo_nil_succ, padTo_cons]
        by_cases hy : y = 0
        · subst hy
          rw [lexCmp_cons_self]
          show vcmpZero (0 :: ys) = _
          rw [vcmpZero_cons_zero]
          exact ih [] ys (by simp) hys
        · rw [lexCmp_cons_ne (Ne.symm hy)]
          show vcmpZero (y :: ys) = _
          rw [vcmpZero_cons_ne hy]
          omega
    | cons x xs =>
      have hxs : xs.length ≤ n := by simpa using hva
      cases vb with
      | nil =>
        rw [padTo_cons, padTo_nil_succ]
        by_cases hx : x = 0
        · subst hx
          rw [lexCmp_cons_self, vcmp_cons_nil_zero]
          exact ih xs [] hxs (by simp)
        · rw [lexCmp_cons_ne hx, vcmp_cons_nil_ne hx]
          omega
      | cons y ys =>
        have hys : ys.length ≤ n := by simpa using hvb
        rw [padTo_cons, padTo_cons]
        by_cases hxy : x = y
        · subst hxy
          rw [lexCmp_cons_self, vcmp_cons_self]
          exact ih xs ys hxs hys
        · rw [lexCmp_cons_ne hxy, vcmp_cons_ne hxy]

theorem lexCmp_anti : ∀ a b : List Nat, lexCmp a b = -(lexCmp b a) := by
  intro a
  induction a with
  | nil => intro b; cases b <;> simp [lexCmp]
  | cons x xs ih =>
    intro b
    cases b with
    | nil => simp [lexCmp]
    | cons y ys =>
      by_cases hxy : x = y
      · subst hxy
        rw [lexCmp_cons_self, lexCmp_cons_self]
        exact ih ys
      · rw [lexCmp_cons_ne hxy, lexCmp_cons_ne (Ne.symm hxy)]
        omega

theorem lexCmp_eq_zero_iff :
    ∀ a b : List Nat, a.length = b.length → (lexCmp a b = 0 ↔ a = b) := by
  intro a
  induction a with
  | nil =>
    intro b h
    have : b = [] := List.eq_nil_of_length_eq_zero h.symm
    subst this
    simp [lexCmp]
  | cons x xs ih =>
    intro b h
    cases b with
    | nil => simp at h
    | cons y ys =>
      have hlen : xs.length = ys.length := by simpa using h
      by_cases hxy : x = y
      · subst hxy
        rw [lexCmp_cons_self]
        simpa using ih ys hlen
      · rw [lexCmp_cons_ne hxy]
        have h1 : ¬((x : Int) - (y : Int) = 0) := by omega
        simp [h1, hxy]

theorem lexCmp_trans_nonneg :
    ∀ a b c : List Nat, a.length = b.length → b.length = c.length →
      0 ≤ lexCmp a b → 0 ≤ lexCmp b c → 0 ≤ lexCmp a c := by
  intro a
  induction a with
  | nil => intro b c _ _ _ _; simp [lexCmp]
  | cons x xs ih =>
    intro b c h1 h2 hab hbc
    cases b with
    | nil => simp at h1
    | cons y ys =>
      cases c with
      | nil => simp at h2
      | cons z zs =>
        have h1' : xs.length = ys.length := by simpa using h1
        have h2' : ys.length = zs.length := by simpa using h2
        by_cases hxy : x = y
        · subst hxy
          by_cases hyz : x = z
          · subst hyz
            rw [lexCmp_cons_self] at hab hbc ⊢
            exact ih ys zs h1' h2' hab hbc
          · rw [lexCmp_cons_ne hyz] at hbc
            rw [lexCmp_cons_ne hyz]
            exact hbc
        · rw [lexCmp_cons_ne hxy] at hab
          by_cases hyz : y = z
          · subst hyz
            rw [lexCmp_cons_ne hxy]
            exact hab
          · rw [lexCmp_cons_ne hyz] at hbc
            have hxz : x ≠ z := by omega
            rw [lexCmp_cons_ne hxz]
            omega

theorem version_compare_anti (a b : String) :
    _version_compare a b = -(_version_compare b a) := by
  unfold _version_compare
  set va := _parse_version a with hva
  set vb := _parse_version b with hvb
  rw [vcmp_eq_lexCmp (max va.length vb.length) va vb (Nat.le_max_left _ _)
        (Nat.le_max_right _ _),
      vcmp_eq_lexCmp (max va.length vb.length) vb va (Nat.le_max_right _ _)
        (Nat.le_max_left _ _),
      lexCmp_anti]

theorem version_compare_total {a b : String} (h : ¬ 0 ≤ _version_compare a b) :
    0 ≤ _version_compare b a := by
  have := version_compare_anti a b
  omega

theorem version_compare_trans {a b c : String} (hab : 0 ≤ _version_compare a b)
    (hbc : 0 ≤ _version_compare b c) : 0 ≤ _version_compare a c := by
  unfold _version_compare at hab hbc ⊢
  set va := _parse_version a
  set vb := _parse_version b
  set vc := _parse_version c
  set n := max (max va.length vb.length) vc.length with hn
  have hla : va.length ≤ n := le_trans (Nat.le_max_left _ _) (Nat.le_max_left _ _)
  have hlb : vb.length ≤ n := le_trans (Nat.le_max_right _ _) (Nat.le_max_left _ _)
  have hlc : vc.length ≤ n := Nat.le_max_right _ _
  rw [vcmp_eq_lexCmp n va vb hla hlb] at hab
  rw [vcmp_eq_lexCmp n vb vc hlb hlc] at hbc
  rw [vcmp_eq_lexCmp n va vc hla hlc]
  exact lexCmp_trans_nonneg _ _ _
    (by rw [padTo_length _ _ hla, padTo_length _ _ hlb])
    (by rw [padTo_length _ _ hlb, padTo_length _ _ hlc]) hab hbc

theorem version_compare_zero_congr {a v : String} (h : _version_compare a v = 0)
    (b : String) : _version_compare b a = _version_compare b v := by
  unfold _version_compare at h ⊢
  set va := _parse_version a
  set vv := _parse_version v
  set vb := _parse_version b
  set n := max (max va.length vv.length) vb.length with hn
  have hla : va.length ≤ n := le_trans (Nat.le_max_left _ _) (Nat.le_max_left _ _)
  have hlv : vv.length ≤ n := le_trans (Nat.le_max_right _ _) (Nat.le_max_left _ _)
  have hlb : vb.length ≤ n := Nat.le_max_right _ _
  rw [vcmp_eq_lexCmp n va vv hla hlv] at h
  have hpad : padTo va n = padTo vv n :=
    (lexCmp_eq_zero_iff _ _ (by rw [padTo_length _ _ hla, padTo_length _ _ hlv])).mp h
  rw [vcmp_eq_lexCmp n vb va hlb hla, vcmp_eq_lexCmp n vb vv hlb hlv, hpad]

/-! ### The stable descending sort -/

theorem insertDesc_perm (a : String) (l : List String) :
    (insertDesc a l).Perm (a :: l) := by
  induction l with
  | nil => simp [insertDesc]
  | cons b t ih =>
    by_cases h : 0 ≤ _version_compare a b
    · simp [insertDesc, h]
    · simp only [insertDesc, if_neg h]
      exact (ih.cons b).trans (List.Perm.swap a b t)

theorem sortDesc_perm (l : List String) : (sortDesc l).Perm l := by
  induction l with
  | nil => simp [sortDesc]
  | cons a t ih => exact (insertDesc_perm a (sortDesc t)).trans (ih.cons a)

theorem insertDesc_pairwise (a : String) (l : List String)
    (hl : l.Pairwise (fun x y => 0 ≤ _version_compare x y)) :
    (insertDesc a l).Pairwise (fun x y => 0 ≤ _version_compare x y) := by
  induction l with
  | nil => simp [insertDesc]
  | cons b t ih =>
    rcases List.pairwise_cons.mp hl with ⟨hb, ht⟩
    by_cases h : 0 ≤ _version_compare a b
    · simp only [insertDesc, if_pos h]
      refine List.pairwise_cons.mpr ⟨?_, hl⟩
      intro x hx
      rcases List.mem_cons.mp hx with rfl | hx
      · exact h
      · exact version_compare_trans h (hb x hx)
    · simp only [insertDesc, if_neg h]
      refine List.pairwise_cons.mpr ⟨?_, ih ht⟩
      intro x hx
      have hx' : x ∈ a :: t := (insertDesc_perm a t).mem_iff.mp hx
      rcases List.mem_cons.mp hx' with rfl | hx'
      · exact version_compare_total h
      · exact hb x hx'

theorem sortDesc_pairwise (l : List String) :
    (sortDesc l).Pairwise (fun x y => 0 ≤ _version_compare x y) := by
  induction l with
  | nil => simp [sortDesc]
  | cons a t ih => exact insertDesc_pairwise a (sortDesc t) ih

theorem insertDesc_filter_tie {v : String} (a : String) (l : List String)
    (ha : _version_compare a v = 0) :
    (insertDesc a l).filter (fun x => decide (_version_compare x v = 0))
      = a :: l.filter (fun x => decide (_version_compare x v = 0)) := by
  induction l with
  | nil => simp [insertDesc, ha]
  | cons b t ih =>
    by_cases h : 0 ≤ _version_compare a b
    · simp only [insertDesc, if_pos h]
      rw [List.filter_cons_of_pos (by simp [ha])]
    · have hanti := version_compare_anti a b
      have hbv : _version_compare b v ≠ 0 := by
        rw [← version_compare_zero_congr ha b]
        omega
      simp only [insertDesc, if_neg h]
      rw [List.filter_cons_of_neg (by simp [hbv]), ih,
        List.filter_cons_of_neg (by simp [hbv])]

theorem insertDesc_filter_notie {v : String} (a : String) (l : List String)
    (ha : _version_compare a v ≠ 0) :
    (insertDesc a l).filter (fun x => decide (_version_compare x v = 0))
      = l.filter (fun x => decide (_version_compare x v = 0)) := by
  induction l with
  | nil => simp [insertDesc, ha]
  | cons b t ih =>
    by_cases h : 0 ≤ _version_compare a b
    · simp only [insertDesc, if_pos h]
      rw [List.filter_cons_of_neg (by simp [ha])]
    · simp only [insertDesc, if_neg h]
      by_cases hb : _version_compare b v = 0
      · rw [List.filter_cons_of_pos (by simp [hb]), ih,
          List.filter_cons_of_pos (by simp [hb])]
      · rw [List.filter_cons_of_neg (by simp [hb]), ih,
          List.filter_cons_of_neg (by simp [hb])]

theorem sortDesc_filter_tie (v : String) (l : List String) :
    (sortDesc l).filter (fun x => decide (_version_compare x v = 0))
      = l.filter (fun x => decide (_version_compare x v = 0)) := by
  induction l with
  | nil => rfl
  | cons a t ih =>
    show (insertDesc a (sortDesc t)).filter _ = _
    by_cases ha : _version_compare a v = 0
    · rw [insertDesc_filter_tie a _ ha, ih, List.filter_cons_of_pos (by simp [ha])]
    · rw [insertDesc_filter_notie a _ ha, ih, List.filter_cons_of_neg (by simp [ha])]

/-! ### Claims about `branch_detector.py` -/

/-- C6: the output of `detect_release_branches` is its matching branches
sorted descending under `_version_compare` (a permutation of the filtered
input, pairwise non-ascending), branches whose version tuples compare
equal keep their relative input order, and the ordering is numeric:
`2.10` sorts ahead of `2.9`. -/
theorem claim_C6_sorted_descending :
    (∀ (l : List String) (ex : Option String) (mo : Bool),
        (detect_release_branches l ex mo none).Perm (releaseFilter l ex mo))
    ∧ (∀ (l : List String) (ex : Option String) (mo : Bool),
        (detect_release_branches l ex mo none).Pairwise
          (fun a b => 0 ≤ _version_compare a b))
    ∧ (∀ (l : List String) (ex : Option String) (mo : Bool) (v : String),
        (detect_release_branches l ex mo none).filter
            (fun x => decide (_version_compare x v = 0))
          = (releaseFilter l ex mo).filter
              (fun x => decide (_version_compare x v = 0)))
    ∧ detect_release_branches ["2.9", "2.10"] none true none = ["2.10", "2.9"] := by
  refine ⟨?_, ?_, ?_, by decide⟩
  · intro l ex mo; exact sortDesc_perm _
  · intro l ex mo; exact sortDesc_pairwise _
  · intro l ex mo v; exact sortDesc_filter_tie v _

/-- C7: a branch appears in the auto-detect output (no cap) iff it is in
the input, is not the excluded branch, and matches the mode's shapes;
the excluded branch never appears, for any cap; and `2.4.1` is excluded
in majors-only mode but included in all-release mode. -/
theorem claim_C7_mode_shapes :
    (∀ (l : List String) (ex : Option String) (mo : Bool) (b : String),
        b ∈ detect_release_branches l ex mo none ↔
          b ∈ l ∧ some b ≠ ex ∧
            (if mo then matchMajorMinor b else matchAnyRelease b) = true)
    ∧ (∀ (l : List String) (mo : Bool) (lim : Option Nat) (e : String),
        e ∉ detect_release_branches l (some e) mo lim)
    ∧ "2.4.1" ∉ detect_release_branches ["2.4.1"] none true none
    ∧ "2.4.1" ∈ detect_release_branches ["2.4.1"] none false none := by
  have hmem : ∀ (l : List String) (ex : Option String) (mo : Bool) (b : String),
      b ∈ detect_release_branches l ex mo none ↔
        b ∈ l ∧ some b ≠ ex ∧
          (if mo then matchMajorMinor b else matchAnyRelease b) = true := by
    intro l ex mo b
    rw [show detect_release_branches l ex mo none
          = sortDesc (releaseFilter l ex mo) from rfl,
        (sortDesc_perm _).mem_iff]
    simp [releaseFilter, List.mem_filter, and_assoc]
  refine ⟨hmem, ?_, by decide, by decide⟩
  intro l mo lim e he
  have hbase : e ∉ detect_release_branches l (some e) mo none := by
    intro h
    exact ((hmem l (some e) mo e).mp h).2.1 rfl
  cases lim with
  | none => exact hbase he
  | some n =>
    simp only [detect_release_branches] at he hbase
    by_cases hn : n ≠ 0
    · rw [if_pos hn] at he
      exact hbase (List.take_subset _ _ he)
    · rw [if_neg hn] at he
      exact hbase he

/-- C9, counterexample: with a cap of 0 the code returns the whole sorted
list, not the first 0 entries, because `if limit:` treats 0 like `None`. -/
theorem claim_C9_counterexample :
    detect_release_branches ["2.4"] none true (some 0)
      ≠ (detect_release_branches ["2.4"] none true none).take 0 := by
  decide

/-- C9, amended: for every positive cap the result is the first `n`
entries of the sorted uncapped result; a cap of 0 is ignored and returns
the whole sorted list. -/
theorem claim_C9_amended (l : List String) (ex : Option String) (mo : Bool)
    (n : Nat) (hn : 0 < n) :
    detect_release_branches l ex mo (some n)
      = (detect_release_branches l ex mo none).take n
    ∧ detect_release_branches l ex mo (some 0)
      = detect_release_branches l ex mo none := by
  constructor
  · have hne : n ≠ 0 := Nat.pos_iff_ne_zero.mp hn
    simp [detect_release_branches, hne]
  · simp [detect_release_branches]

/-- Witness for `claim_C9_amended` at a concrete input. -/
theorem claim_C9_amended_witness :
    detect_release_branches ["2.4", "2.5"] none true (some 1)
      = (detect_release_branches ["2.4", "2.5"] none true none).take 1
    ∧ detect_release_branches ["2.4", "2.5"] none true (some 0)
      = detect_release_branches ["2.4", "2.5"] none true none :=
  claim_C9_amended ["2.4", "2.5"] none true 1 (by decide)

/-- C10: `filter_branches` returns exactly the requested branches that
exist, in the requested order, and the concrete example behaves as the
specification says. -/
theorem claim_C10_filter_branches :
    (∀ all_branches target_branches : List String,
        filter_branches all_branches target_branches
          = target_branches.filter (fun b => decide (b ∈ all_branches)))
    ∧ filter_branches ["main", "2.4", "2.5"] ["2.5", "2.6"] = ["2.5"] := by
  constructor
  · intro all ts
    unfold filter_branches
    apply List.filter_congr
    intro b _
    by_cases h : b ∈ all <;> simp [h]
  · decide

/-! ### Claims about the body matcher -/

/-- C2: the matcher classifies an empty body as false and otherwise
returns true iff (the lower-cased body carries a `pr:`/`pr :` label and a
reference hit is present) or (a keyword occurs in the lower-cased body
and a reference hit is present); the three concrete examples of the
specification behave as stated. -/
theorem claim_C2_matcher :
    (∀ (body : String) (n : Nat),
        _is_cherry_pick_reference body n = cherryPickReferenceSpec body n)
    ∧ (∀ n : Nat, _is_cherry_pick_reference "" n = false)
    ∧ _is_cherry_pick_reference "Cherry-pick from master\npr: #45911" 45911 = true
    ∧ _is_cherry_pick_reference "pr: 45111" 45111 = true
    ∧ _is_cherry_pick_reference "unrelated text #123" 123 = false := by
  refine ⟨?_, fun n => rfl, by decide, by decide, by decide⟩
  intro body n
  unfold _is_cherry_pick_reference cherryPickReferenceSpec
  cases hb : body.isEmpty
  · simp only [Bool.false_eq_true, if_false]
    cases hL : hasPrLabel (pyLower body) <;>
      cases hR : hasSourceReference body n <;>
        cases hK : hasCherryPickKeyword (pyLower body) <;> simp
  · simp

/-! ### Claims about the detection pass -/

theorem resultForBranch_fields (sp : PRInfo) (m : String → Option PRInfo)
    (b : String) :
    (resultForBranch sp m b).sourcePr = sp ∧ (resultForBranch sp m b).targetBranch = b := by
  cases h : m b <;> simp [resultForBranch, h]

theorem detect_for_pr_pairs {x : Except GHError (List PRData)}
    {gd : Nat → Except GHError PRDetail} {sp : PRInfo} {tbs : List String}
    {rs : List CherryPickResult} (h : _detect_for_pr x gd sp tbs = Except.ok rs) :
    rs.map (fun r => (r.sourcePr, r.targetBranch)) = tbs.map (fun b => (sp, b)) := by
  cases x with
  | error e => exact absurd h (by simp [_detect_for_pr])
  | ok related =>
    have h' : tbs.map (resultForBranch sp
        (buildBranchMap gd sp.number tbs related (fun _ => none))) = rs := by
      simpa [_detect_for_pr] using h
    rw [← h', List.map_map]
    apply List.map_congr_left
    intro b _
    have hf := resultForBranch_fields sp
      (buildBranchMap gd sp.number tbs related (fun _ => none)) b
    simp [Function.comp, hf.1, hf.2]

theorem length_cross_product (tbs : List String) :
    ∀ prs : List PRInfo,
      (prs.flatMap (fun p => tbs.map fun b => (p, b))).length
        = prs.length * tbs.length := by
  intro prs
  induction prs with
  | nil => simp
  | cons p rest ih =>
    simp only [List.flatMap_cons, List.length_append, List.length_map, ih,
      List.length_cons]
    ring

/-- C1: a completed detection pass returns exactly the full cross product:
the `(source PR, target branch)` pairs of the results are, in order, the
source PRs crossed with the requested branches, so there are exactly
N×M results, one per pair, with no duplicates and no omissions. -/
theorem claim_C1_cross_product (searchRelated : Nat → Except GHError (List PRData))
    (getDetails : Nat → Except GHError PRDetail) (source_prs : List PRInfo)
    (target_branches : List String) (rs : List CherryPickResult)
    (h : detect_cherry_picks searchRelated getDetails source_prs target_branches
      = Except.ok rs) :
    rs.map (fun r => (r.sourcePr, r.targetBranch))
      = source_prs.flatMap (fun p => target_branches.map fun b => (p, b))
    ∧ rs.length = source_prs.length * target_branches.length := by
  have main : rs.map (fun r => (r.sourcePr, r.targetBranch))
      = source_prs.flatMap (fun p => target_branches.map fun b => (p, b)) := by
    induction source_prs generalizing rs with
    | nil =>
      have : rs = [] := by simpa [detect_cherry_picks] using h.symm
      subst this
      simp
    | cons pr rest ih =>
      simp only [detect_cherry_picks] at h
      cases h1 : _detect_for_pr (searchRelated pr.number) getDetails pr
          target_branches with
      | error e => rw [h1] at h; exact absurd h (by simp)
      | ok rs1 =>
        rw [h1] at h
        cases h2 : detect_cherry_picks searchRelated getDetails rest
            target_branches with
        | error e => rw [h2] at h; exact absurd h (by simp)
        | ok more =>
          rw [h2] at h
          have hrs : rs1 ++ more = rs := by simpa using h
          rw [← hrs, List.map_append, List.flatMap_cons,
            detect_for_pr_pairs h1, ih more h2]
  refine ⟨main, ?_⟩
  have hlen := congrArg List.length main
  rw [List.length_map] at hlen
  rw [hlen, length_cross_product]

/-- Witness for `claim_C1_cross_product` at a concrete input: one source
PR, one target branch, an empty search result. -/
theorem claim_C1_cross_product_witness :
    [sampleNotPicked].map (fun r => (r.sourcePr, r.targetBranch))
      = [samplePR].flatMap (fun p => ["2.4"].map fun b => (p, b))
    ∧ [sampleNotPicked].length = [samplePR].length * ["2.4"].length :=
  claim_C1_cross_product (fun _ => Except.ok []) (fun _ => Except.error GHError.other)
    [samplePR] ["2.4"] _ rfl

/-- C4, counterexample: a `RateLimitError` raised by the per-candidate
detail fetch does **not** propagate out of `_detect_for_pr` — the body of
`sampleCandidate` marks it as a cherry-pick of `samplePR`, so the detail
fetch is attempted, its rate-limit failure is swallowed by the
`except Exception` handler, and the pass returns a normal result. -/
theorem claim_C4_counterexample :
    _detect_for_pr (Except.ok [sampleCandidate])
        (fun _ => Except.error (GHError.rateLimited (some 1700000000)))
        samplePR ["2.4"]
      = Except.ok [sampleNotPicked] := rfl

/-- C4, amended: a `RateLimitError` (like any exception) raised by the
related-PR search propagates out of `_detect_for_pr` and aborts the
whole `detect_cherry_picks` pass; one raised inside the per-candidate
detail fetch is caught there, so a pass whose searches succeed always
returns a result list. -/
theorem claim_C4_amended :
    (∀ (gd : Nat → Except GHError PRDetail) (sp : PRInfo) (tbs : List String)
        (e : GHError), _detect_for_pr (Except.error e) gd sp tbs = Except.error e)
    ∧ (∀ (related : List PRData) (gd : Nat → Except GHError PRDetail)
        (sp : PRInfo) (tbs : List String),
        ∃ rs, _detect_for_pr (Except.ok related) gd sp tbs = Except.ok rs)
    ∧ (∀ (sr : Nat → Except GHError (List PRData))
        (gd : Nat → Except GHError PRDetail) (pr : PRInfo) (rest : List PRInfo)
        (tbs : List String) (e : GHError),
        sr pr.number = Except.error e →
          detect_cherry_picks sr gd (pr :: rest) tbs = Except.error e) := by
  refine ⟨fun gd sp tbs e => rfl, fun related gd sp tbs => ⟨_, rfl⟩, ?_⟩
  intro sr gd pr rest tbs e h
  simp [detect_cherry_picks, _detect_for_pr, h]

/-- Witness for `claim_C4_amended` at a concrete input. -/
theorem claim_C4_amended_witness :
    detect_cherry_picks (fun _ => Except.error (GHError.rateLimited (some 5)))
        (fun _ => Except.error GHError.other) [samplePR] ["2.4"]
      = Except.error (GHError.rateLimited (some 5)) :=
  claim_C4_amended.2.2 _ _ samplePR [] ["2.4"] _ rfl

theorem buildBranchMap_cons_same {gd : Nat → Except GHError PRDetail} {sn : Nat}
    {tbs : List String} {d : PRData} {rest : List PRData}
    {m : String → Option PRInfo} (h1 : d.number = sn) :
    buildBranchMap gd sn tbs (d :: rest) m = buildBranchMap gd sn tbs rest m := by
  simp only [buildBranchMap, if_pos h1]

theorem buildBranchMap_cons_noref {gd : Nat → Except GHError PRDetail} {sn : Nat}
    {tbs : List String} {d : PRData} {rest : List PRData}
    {m : String → Option PRInfo} (h1 : ¬ d.number = sn)
    (h2 : _is_cherry_pick_reference (d.body.getD "") sn = false) :
    buildBranchMap gd sn tbs (d :: rest) m = buildBranchMap gd sn tbs rest m := by
  simp [buildBranchMap, h1, h2]

theorem buildBranchMap_cons_err {gd : Nat → Except GHError PRDetail} {sn : Nat}
    {tbs : List String} {d : PRData} {rest : List PRData}
    {m : String → Option PRInfo} {e : GHError} (h1 : ¬ d.number = sn)
    (h2 : _is_cherry_pick_reference (d.body.getD "") sn = true)
    (hgd : gd d.number = Except.error e) :
    buildBranchMap gd sn tbs (d :: rest) m = buildBranchMap gd sn tbs rest m := by
  simp [buildBranchMap, h1, h2, hgd]

theorem buildBranchMap_cons_ok {gd : Nat → Except GHError PRDetail} {sn : Nat}
    {tbs : List String} {d : PRData} {rest : List PRData}
    {m : String → Option PRInfo} {detail : PRDetail} (h1 : ¬ d.number = sn)
    (h2 : _is_cherry_pick_reference (d.body.getD "") sn = true)
    (hgd : gd d.number = Except.ok detail) :
    buildBranchMap gd sn tbs (d :: rest) m
      = if detail.baseRef ∈ tbs then
          buildBranchMap gd sn tbs rest
            (fun b => if b = detail.baseRef
                      then some (_parse_pr_info detail (some detail.baseRef))
                      else m b)
        else buildBranchMap gd sn tbs rest m := by
  simp [buildBranchMap, h1, h2, hgd]

theorem buildBranchMap_skip_failures (gd : Nat → Except GHError PRDetail)
    (sn : Nat) (tbs : List String) :
    ∀ (related : List PRData) (m : String → Option PRInfo),
      buildBranchMap gd sn tbs related m
        = buildBranchMap gd sn tbs
            (related.filter (fun d => exceptIsOk (gd d.number))) m := by
  intro related
  induction related with
  | nil => intro m; rfl
  | cons d rest ih =>
    intro m
    cases hgd : gd d.number with
    | error e =>
      have hko : exceptIsOk (gd d.number) = false := by simp [exceptIsOk, hgd]
      rw [List.filter_cons_of_neg (by simp [hko])]
      by_cases h1 : d.number = sn
      · rw [buildBranchMap_cons_same h1]
        exact ih m
      · by_cases h2 : _is_cherry_pick_reference (d.body.getD "") sn
        · rw [buildBranchMap_cons_err h1 h2 hgd]
          exact ih m
        · rw [buildBranchMap_cons_noref h1 (Bool.not_eq_true _ ▸ h2)]
          exact ih m
    | ok detail =>
      have hko : exceptIsOk (gd d.number) = true := by simp [exceptIsOk, hgd]
      rw [List.filter_cons_of_pos (by simp [hko])]
      by_cases h1 : d.number = sn
      · rw [buildBranchMap_cons_same h1, buildBranchMap_cons_same h1]
        exact ih m
      · by_cases h2 : _is_cherry_pick_reference (d.body.getD "") sn
        · rw [buildBranchMap_cons_ok h1 h2 hgd, buildBranchMap_cons_ok h1 h2 hgd]
          by_cases h3 : detail.baseRef ∈ tbs
          · rw [if_pos h3, if_pos h3]
            exact ih _
          · rw [if_neg h3, if_neg h3]
            exact ih m
        · rw [buildBranchMap_cons_noref h1 (Bool.not_eq_true _ ▸ h2),
            buildBranchMap_cons_noref h1 (Bool.not_eq_true _ ▸ h2)]
          exact ih m

/-- C8: per-candidate detail-fetch failures are recovered locally — the
pass behaves exactly as if the candidates whose detail fetch fails had
not been returned by the search (only those candidates are dropped), and
it still returns, without surfacing an error, one result for every
requested branch in order. -/
theorem claim_C8_detail_fetch_local (related : List PRData)
    (gd : Nat → Except GHError PRDetail) (sp : PRInfo) (tbs : List String) :
    _detect_for_pr (Except.ok related) gd sp tbs
      = _detect_for_pr
          (Except.ok (related.filter (fun d => exceptIsOk (gd d.number))))
          gd sp tbs
    ∧ ∃ rs, _detect_for_pr (Except.ok related) gd sp tbs = Except.ok rs
        ∧ rs.map (fun r => r.targetBranch) = tbs := by
  constructor
  · simp only [_detect_for_pr]
    rw [buildBranchMap_skip_failures]
  · refine ⟨_, rfl, ?_⟩
    rw [List.map_map]
    have hcongr : ∀ b ∈ tbs, ((fun r => CherryPickResult.targetBranch r) ∘
        resultForBranch sp (buildBranchMap gd sp.number tbs related
          (fun _ => none))) b = id b := by
      intro b _
      exact (resultForBranch_fields sp _ b).2
    rw [List.map_congr_left hcongr, List.map_id]

/-! ### Claims about rate limiting and pagination -/

/-- C3: on a response with zero remaining quota and a reset timestamp the
client computes `wait = max 0 (reset - now) + 1`; with automatic waiting
enabled and `wait ≤ 120` it sleeps `wait` and retries the identical
request — same page, no retry-count bound, never raising, and without
reaching `raise_for_status` (the responses below may carry any status);
otherwise it raises the rate-limit error carrying the reset time without
retrying. -/
theorem claim_C3_rate_limit_wait :
    (∀ (auto_wait : Bool) (t now : Int),
        _handle_rate_limit auto_wait (some 0) (some t) now =
          if auto_wait ∧ max 0 (t - now) + 1 ≤ 120
          then RateLimitAction.sleepRetry (max 0 (t - now) + 1)
          else RateLimitAction.raiseLimit (some t))
    ∧ (∀ (α : Type) (auto_wait : Bool) (resp : Nat → HttpResp α) (now : Nat → Int),
        (∀ i, (resp i).remaining = some 0 ∧ ∃ t, (resp i).reset = some t ∧
            auto_wait = true ∧ max 0 (t - now i) + 1 ≤ 120) →
          ∀ (fuel i0 page : Nat),
            _search_issues_go auto_wait resp now fuel i0 page
              = ((List.range fuel).map (fun k => (i0 + k, page)),
                 SearchOutcome.fuelOut))
    ∧ (∀ (α : Type) (auto_wait : Bool) (resp : Nat → HttpResp α) (now : Nat → Int)
        (fuel i page : Nat) (t : Int),
        (resp i).remaining = some 0 → (resp i).reset = some t →
        ¬(auto_wait = true ∧ max 0 (t - now i) + 1 ≤ 120) →
          _search_issues_go auto_wait resp now (fuel + 1) i page
            = ([(i, page)], SearchOutcome.rateLimitAbort (some t))) := by
  have hdecide : ∀ (auto_wait : Bool) (t now : Int),
      _handle_rate_limit auto_wait (some 0) (some t) now =
        if auto_wait ∧ max 0 (t - now) + 1 ≤ 120
        then RateLimitAction.sleepRetry (max 0 (t - now) + 1)
        else RateLimitAction.raiseLimit (some t) := by
    intro auto_wait t now
    simp [_handle_rate_limit]
  refine ⟨hdecide, ?_, ?_⟩
  · intro α auto_wait resp now h fuel
    induction fuel with
    | zero => intro i0 page; simp [_search_issues_go]
    | succ f ih =>
      intro i0 page
      obtain ⟨hrem, t, hreset, haw, hwait⟩ := h i0
      have hact : _handle_rate_limit auto_wait (resp i0).remaining
          (resp i0).reset (now i0)
          = RateLimitAction.sleepRetry (max 0 (t - now i0) + 1) := by
        rw [hrem, hreset, hdecide, if_pos ⟨haw, hwait⟩]
      simp only [_search_issues_go, hact]
      rw [ih (i0 + 1) page]
      rw [List.range_succ_eq_map, List.map_cons, List.map_map]
      refine congrArg (fun l => ((i0 + 0, page) :: l, SearchOutcome.fuelOut)) ?_
      apply List.map_congr_left
      intro k _
      simp [Function.comp, Nat.succ_eq_add_one]
      omega
  · intro α auto_wait resp now fuel i page t hrem hreset hneg
    have hact : _handle_rate_limit auto_wait (resp i).remaining
        (resp i).reset (now i)
        = RateLimitAction.raiseLimit (some t) := by
      rw [hrem, hreset, hdecide, if_neg hneg]
    simp only [_search_issues_go, hact]

/-- Witness for `claim_C3_rate_limit_wait`: a permanently rate-limited
response with a 403 status and a reset 5 seconds ahead is retried on the
same page as long as fuel lasts, never raising; with automatic waiting
disabled the first response raises at once, carrying the reset time. -/
theorem claim_C3_rate_limit_wait_witness :
    _search_issues_go true
        (fun _ => ({ remaining := some 0, reset := some 10, status := 403, items := [] } : HttpResp Nat))
        (fun _ => 5) 2 0 1
      = ([(0, 1), (1, 1)], SearchOutcome.fuelOut)
    ∧ _search_issues_go false
        (fun _ => ({ remaining := some 0, reset := some 500, status := 200, items := [] } : HttpResp Nat))
        (fun _ => 5) 3 0 1
      = ([(0, 1)], SearchOutcome.rateLimitAbort (some 500)) := by
  constructor
  · have h := claim_C3_rate_limit_wait.2.1 Nat true
      (fun _ => ({ remaining := some 0, reset := some 10, status := 403, items := [] } : HttpResp Nat))
      (fun _ => 5) (fun i => ⟨rfl, 10, rfl, rfl, by norm_num⟩) 2 0 1
    simpa using h
  · exact claim_C3_rate_limit_wait.2.2 Nat false
      (fun _ => ({ remaining := some 0, reset := some 500, status := 200, items := [] } : HttpResp Nat))
      (fun _ => 5) 2 0 1 500 rfl rfl (by decide)

theorem search_go_clean (α : Type) (auto_wait : Bool) (resp : Nat → HttpResp α)
    (now : Nat → Int) :
    ∀ (n i0 p0 fuel : Nat),
      (∀ k, k ≤ n → _handle_rate_limit auto_wait (resp (i0 + k)).remaining
          (resp (i0 + k)).reset (now (i0 + k)) = RateLimitAction.proceed) →
      (∀ k, k ≤ n → (resp (i0 + k)).status < 400) →
      (∀ k, k < n → (resp (i0 + k)).items.length = PER_PAGE) →
      (resp (i0 + n)).items.length < PER_PAGE →
      n + 1 ≤ fuel →
      _search_issues_go auto_wait resp now fuel i0 p0
        = ((List.range (n + 1)).map (fun k => (i0 + k, p0 + k)),
           SearchOutcome.ok (((List.range (n + 1)).map
             (fun k => (resp (i0 + k)).items)).flatten)) := by
  intro n
  induction n with
  | zero =>
    intro i0 p0 fuel hclean hstatus _ hshort hfuel
    obtain ⟨f, rfl⟩ : ∃ f, fuel = f + 1 := ⟨fuel - 1, by omega⟩
    have hc := hclean 0 (Nat.le_refl 0)
    have hs := hstatus 0 (Nat.le_refl 0)
    rw [Nat.add_zero] at hc hs
    rw [Nat.add_zero] at hshort
    simp only [_search_issues_go, hc]
    rw [if_neg (by omega)]
    by_cases hE : (resp i0).items.isEmpty
    · have hnil : (resp i0).items = [] := List.isEmpty_iff.mp hE
      rw [if_pos hE]
      simp [hnil, List.range_succ]
    · rw [if_neg hE, if_pos hshort]
      simp [List.range_succ]
  | succ n ih =>
    intro i0 p0 fuel hclean hstatus hfull hshort hfuel
    obtain ⟨f, rfl⟩ : ∃ f, fuel = f + 1 := ⟨fuel - 1, by omega⟩
    have hc := hclean 0 (Nat.zero_le _)
    have hs := hstatus 0 (Nat.zero_le _)
    have hlen := hfull 0 (Nat.succ_pos n)
    rw [Nat.add_zero] at hc hs hlen
    have hne : (resp i0).items ≠ [] := by
      intro h
      rw [h] at hlen
      simp [PER_PAGE] at hlen
    have hE : ¬ ((resp i0).items.isEmpty = true) := by
      rw [List.isEmpty_iff]
      exact hne
    have hnotshort : ¬ ((resp i0).items.length < PER_PAGE) := by omega
    have ihs := ih (i0 + 1) (p0 + 1) f
      (fun k hk => by
        have h := hclean (k + 1) (by omega)
        rwa [show i0 + (k + 1) = i0 + 1 + k by omega] at h)
      (fun k hk => by
        have h := hstatus (k + 1) (by omega)
        rwa [show i0 + (k + 1) = i0 + 1 + k by omega] at h)
      (fun k hk => by
        have h := hfull (k + 1) (by omega)
        rwa [show i0 + (k + 1) = i0 + 1 + k by omega] at h)
      (by rwa [show i0 + (n + 1) = i0 + 1 + n by omega] at hshort)
      (by omega)
    simp only [_search_issues_go, hc]
    rw [if_neg (by omega), if_neg hE, if_neg hnotshort, ihs]
    rw [List.range_succ_eq_map (n + 1), List.map_cons, List.map_cons,
      List.map_map, List.map_map, List.flatten_cons]
    simp only [Prod.mk.injEq, Nat.add_zero]
    refine ⟨?_, ?_⟩
    · refine congrArg (fun l => (i0, p0) :: l) ?_
      apply List.map_congr_left
      intro k _
      simp [Function.comp, Nat.succ_eq_add_one]
      constructor <;> omega
    · refine congrArg (fun l => SearchOutcome.ok ((resp i0).items ++ List.flatten l)) ?_
      apply List.map_congr_left
      intro k _
      simp only [Function.comp, Nat.succ_eq_add_one]
      rw [show i0 + 1 + k = i0 + (k + 1) from by omega]

/-- C5: in a run whose responses are clean (no rate-limit action, status
below 400), pages are numbered from 1 with fixed size `PER_PAGE = 100`:
if pages 1..n come back with exactly 100 records and page n+1 comes back
short, the loop issues exactly the requests for pages 1..n+1, in order,
each once — so page k+1 is requested exactly when page k was full, and a
short page ends the run with no further request — and yields exactly the
concatenation of all fetched pages in order. -/
theorem claim_C5_pagination (α : Type) (auto_wait : Bool) (resp : Nat → HttpResp α)
    (now : Nat → Int) (n fuel : Nat)
    (hclean : ∀ i, _handle_rate_limit auto_wait (resp i).remaining (resp i).reset
      (now i) = RateLimitAction.proceed)
    (hstatus : ∀ i, (resp i).status < 400)
    (hfull : ∀ k, k < n → (resp k).items.length = PER_PAGE)
    (hshort : (resp n).items.length < PER_PAGE)
    (hfuel : n + 1 ≤ fuel) :
    _search_issues_go auto_wait resp now fuel 0 1
      = ((List.range (n + 1)).map (fun k => (k, k + 1)),
         SearchOutcome.ok (((List.range (n + 1)).map
           (fun k => (resp k).items)).flatten)) := by
  have h := search_go_clean α auto_wait resp now n 0 1 fuel
    (fun k _ => by simpa using hclean k) (fun k _ => by simpa using hstatus k)
    (fun k hk => by simpa using hfull k hk) (by simpa using hshort) hfuel
  rw [h]
  refine congrArg₂ Prod.mk ?_ ?_
  · apply List.map_congr_left
    intro k _
    simp [Nat.add_comm]
  · refine congrArg SearchOutcome.ok (congrArg List.flatten ?_)
    apply List.map_congr_left
    intro k _
    simp

/-- Witness for `claim_C5_pagination`: a first page of exactly 100
records followed by a one-record page yields requests for pages 1 and 2
and the concatenation of both pages. -/
theorem claim_C5_pagination_witness :
    _search_issues_go true
        (fun i => if i = 0 then ({ remaining := none, reset := none, status := 200, items := List.replicate 100 (0 : Nat) } : HttpResp Nat) else ({ remaining := none, reset := none, status := 200, items := [7] } : HttpResp Nat))
        (fun _ => 0) 2 0 1
      = ([(0, 1), (1, 2)],
         SearchOutcome.ok (List.replicate 100 (0 : Nat) ++ [7])) := by
  have h := claim_C5_pagination Nat true
    (fun i => if i = 0 then ({ remaining := none, reset := none, status := 200, items := List.replicate 100 (0 : Nat) } : HttpResp Nat) else ({ remaining := none, reset := none, status := 200, items := [7] } : HttpResp Nat))
    (fun _ => 0) 1 2
    (fun i => by by_cases hi : i = 0 <;> simp [hi, _handle_rate_limit])
    (fun i => by by_cases hi : i = 0 <;> simp [hi])
    (fun k hk => by
      have : k = 0 := by omega
      subst this
      simp [PER_PAGE])
    (by simp [PER_PAGE])
    (by omega)
  simpa [List.range_succ] using h
